import Mathlib

/-
Verification of the dual-number automatic differentiation engine
(nictools, SP_FirstDerivatives.py) against its design document.

A DerivVar carries a scalar value and a list of first-order partial
derivatives.  All operators of the source are translated here as pure
functions on that structure; operations that raise in the source return
an Except value instead.  Generic arithmetic is stated over an arbitrary
linear ordered field (instantiated at rationals for concrete runs);
the transcendental layer is stated over the reals.
-/

set_option maxHeartbeats 1000000

/-- Error taxonomy of the design document: each constructor names one of
the failure kinds the engine can raise. -/
inductive DVError where
  | invalidOrder
  | indexOutOfRange
  | divisionByZero
  | unsupportedOperation
  | unsupportedTernaryPow
  | undefinedDerivative
  deriving DecidableEq, Repr

/-- The dual-number value type of the source: a scalar value together with
the list of first-order partial derivatives. -/
structure DerivVar (α : Type) where
  value : α
  deriv : List α
  deriving DecidableEq, Repr

/-- Source `_mapderiv(func, a, b)`: zero-pad the shorter of the two
derivative lists to the common length, then map the binary function
elementwise. -/
def mapderiv {α : Type} [Zero α] (func : α → α → α) (a b : List α) : List α :=
  let nvars := max a.length b.length
  List.zipWith func (a ++ List.replicate (nvars - a.length) 0)
                    (b ++ List.replicate (nvars - b.length) 0)

/-- Selector argument of the source constructor: either an integer variable
index or an already-built derivative list. -/
inductive InitIndex (α : Type) where
  | idx (i : ℕ)
  | vec (v : List α)

/-- Source `DerivVar.__init__(value, index, order)`: rejects orders outside
zero and one, order zero yields an empty derivative list, a list index is
taken verbatim, an integer index builds the basis list. -/
def mkDerivVar {α : Type} [Zero α] [One α] (value : α) (index : InitIndex α)
    (order : ℤ) : Except DVError (DerivVar α) :=
  if order < 0 ∨ order > 1 then .error .invalidOrder
  else if order = 0 then .ok ⟨value, []⟩
  else match index with
    | .vec v => .ok ⟨value, v⟩
    | .idx i => .ok ⟨value, List.replicate i 0 ++ [1]⟩

/-- Source `DerivVar.__getitem__(order)`: order zero reads the scalar value,
order one reads the derivative list, anything else is rejected. -/
def dvGetItem {α : Type} (d : DerivVar α) (order : ℤ) :
    Except DVError (α ⊕ List α) :=
  if order < 0 ∨ order > 1 then .error .indexOutOfRange
  else if order = 0 then .ok (.inl d.value) else .ok (.inr d.deriv)

/-- Source `__coerce__`: a DerivVar operand passes through, a plain scalar
operand is wrapped as a constant with an empty derivative list
(the source builds `DerivVar(other, [])`). -/
def coerce {α : Type} (self : DerivVar α) (other : α ⊕ DerivVar α) :
    DerivVar α × DerivVar α :=
  match other with
  | .inr d => (self, d)
  | .inl a => (self, ⟨a, []⟩)

/-- Source `__cmp__`: the builtin three-way comparison applied to the two
scalar values only. -/
def dvCmp {α : Type} [LinearOrder α] (a b : DerivVar α) : ℤ :=
  if a.value < b.value then -1 else if a.value = b.value then 0 else 1

/-- Source `__neg__`. -/
def dvNeg {α : Type} [Neg α] (u : DerivVar α) : DerivVar α :=
  ⟨-u.value, u.deriv.map fun a => -a⟩

/-- Source `__pos__`: the source returns `self` itself. -/
def dvPos {α : Type} (u : DerivVar α) : DerivVar α := u

/-- Source `__abs__`. -/
def dvAbs {α : Type} [LinearOrderedField α] (u : DerivVar α) : DerivVar α :=
  ⟨|u.value|, u.deriv.map fun a => (u.value / |u.value|) * a⟩

/-- Source `__add__`. -/
def dvAdd {α : Type} [AddZeroClass α] (u v : DerivVar α) : DerivVar α :=
  ⟨u.value + v.value, mapderiv (fun a b => a + b) u.deriv v.deriv⟩

/-- Source `__sub__`. -/
def dvSub {α : Type} [SubtractionMonoid α] (u v : DerivVar α) : DerivVar α :=
  ⟨u.value - v.value, mapderiv (fun a b => a - b) u.deriv v.deriv⟩

/-- Source `__mul__`. -/
def dvMul {α : Type} [MulZeroClass α] [Add α] (u v : DerivVar α) : DerivVar α :=
  ⟨u.value * v.value,
   mapderiv (fun a b => a + b)
     (u.deriv.map fun x => v.value * x)
     (v.deriv.map fun x => u.value * x)⟩

/-- Source `__truediv__`: raises on a zero divisor value, otherwise applies
the quotient rule through the reciprocal of the divisor value. -/
def dvDiv {α : Type} [Field α] [DecidableEq α] (u v : DerivVar α) :
    Except DVError (DerivVar α) :=
  if v.value = 0 then .error .divisionByZero
  else
    .ok ⟨u.value * (1 / v.value),
      mapderiv (fun a b => a - b)
        (u.deriv.map fun x => (1 / v.value) * x)
        (v.deriv.map fun x => u.value * (1 / v.value) * (1 / v.value) * x)⟩

/-- Source `__floordiv__`: always rejected. -/
def dvFloorDiv {α : Type} (_ _ : DerivVar α) : Except DVError (DerivVar α) :=
  .error .unsupportedOperation

/-- The builtin sign in the source (`np.sign`). -/
def npSign {α : Type} [LinearOrder α] [Neg α] [Zero α] [One α] (x : α) : α :=
  if x < 0 then -1 else if x = 0 then 0 else 1

/-- Source `sign`: rejected at a zero value; otherwise the source builds
`DerivVar(np.sign(value), 0)`, whose integer index 0 with the default
order 1 produces the basis derivative list with a single entry 1. -/
def dvSign {α : Type} [LinearOrder α] [Neg α] [Zero α] [One α] (u : DerivVar α) :
    Except DVError (DerivVar α) :=
  if u.value = 0 then .error .undefinedDerivative
  else .ok ⟨npSign u.value, List.replicate 0 0 ++ [1]⟩

/-- Claim C1: the derivative combinator returns a list of length
max(len a, len b) whose entry at each position is the binary operation
applied to the entries of the two inputs at that position, a missing entry
reading as zero; concretely, combining [1,2] and [3] with addition
gives [4,2]. -/
theorem mapderiv_spec {α : Type} [Zero α] (f : α → α → α) (a b : List α) :
    (mapderiv f a b).length = max a.length b.length ∧
    (∀ i : ℕ, i < max a.length b.length →
      (mapderiv f a b).getD i 0 = f (a.getD i 0) (b.getD i 0)) ∧
    mapderiv (fun x y => x + y) [(1 : ℤ), 2] [3] = [4, 2] := by
  refine ⟨?_, ?_, by decide⟩
  · simp [mapderiv]
  · intro i hi
    have hla : (a ++ List.replicate (max a.length b.length - a.length) (0 : α)).length
        = max a.length b.length := by simp
    have hlb : (b ++ List.replicate (max a.length b.length - b.length) (0 : α)).length
        = max a.length b.length := by simp
    have key : ∀ (l : List α) (k i : ℕ),
        (l ++ List.replicate k (0 : α)).getD i 0 = l.getD i 0 := by
      intro l k
      induction l with
      | nil =>
        intro i
        simp only [List.nil_append]
        induction k generalizing i with
        | zero => simp
        | succ n ih =>
          cases i with
          | zero => simp [List.replicate_succ]
          | succ j => simp only [List.replicate_succ, List.getD_cons_succ]; exact ih j
      | cons x xs ih =>
        intro i
        cases i with
        | zero => simp
        | succ j => simpa using ih j
    have zipkey : ∀ (xs ys : List α) (i : ℕ), i < xs.length → i < ys.length →
        (List.zipWith f xs ys).getD i 0 = f (xs.getD i 0) (ys.getD i 0) := by
      intro xs
      induction xs with
      | nil => intro ys i h _; simp at h
      | cons x xs ih =>
        intro ys i h₁ h₂
        cases ys with
        | nil => simp at h₂
        | cons y ys =>
          cases i with
          | zero => simp
          | succ j =>
            simp only [List.zipWith_cons_cons, List.getD_cons_succ]
            exact ih ys j (by simpa using h₁) (by simpa using h₂)
    show (List.zipWith f _ _).getD i 0 = _
    rw [zipkey _ _ i (by rw [hla]; exact hi) (by rw [hlb]; exact hi),
        key, key]

/-- Claim C1 witness: the general statement instantiated at the concrete
lists [1,2] and [3] over the rationals, position 1. -/
theorem mapderiv_spec_witness :
    (mapderiv (fun x y => x + y) [(1 : ℤ), 2] [3]).getD 1 0 =
      ([(1 : ℤ), 2].getD 1 0) + ([(3 : ℤ)].getD 1 0) :=
  (mapderiv_spec (fun x y => x + y) [(1 : ℤ), 2] [3]).2.1 1 (by decide)

/-- Basis derivative list of the source constructor at an integer index:
`index*[0] + [1]`. -/
def basisDeriv {α : Type} [Zero α] [One α] (i : ℕ) : List α :=
  List.replicate i 0 ++ [1]

/-- Source `DerivVector(x, y, z, index)`: three DerivVar operands are
returned as they are; three plain scalars are wrapped by the constructor at
consecutive indices.  The remaining mixed source branch nests a DerivVar
inside the value field of another, which has no counterpart in this typed
embedding, hence the none result there. -/
def DerivVector {α : Type} [Zero α] [One α] (x y z : α ⊕ DerivVar α)
    (index : ℕ) : Option (List (DerivVar α)) :=
  match x, y, z with
  | .inr dx, .inr dy, .inr dz => some [dx, dy, dz]
  | .inl a, .inl b, .inl c =>
      some [⟨a, basisDeriv index⟩, ⟨b, basisDeriv (index + 1)⟩,
            ⟨c, basisDeriv (index + 2)⟩]
  | _, _, _ => none

/-- Padding with a zero tail never changes a zero-defaulted read. -/
theorem getD_append_replicate_zero {α : Type} [Zero α] (l : List α)
    (k i : ℕ) : (l ++ List.replicate k (0 : α)).getD i 0 = l.getD i 0 := by
  induction l generalizing i with
  | nil =>
    simp only [List.nil_append]
    induction k generalizing i with
    | zero => simp
    | succ n ih =>
      cases i with
      | zero => simp [List.replicate_succ]
      | succ j => simp only [List.replicate_succ, List.getD_cons_succ]; exact ih j
  | cons x xs ih =>
    cases i with
    | zero => simp
    | succ j => simpa using ih j

/-- Adding an all-zero list of matching length elementwise is the identity. -/
theorem zipWith_add_replicate_zero {α : Type} [AddZeroClass α] (l : List α) :
    List.zipWith (fun a b => a + b) l (List.replicate l.length (0 : α)) = l := by
  induction l with
  | nil => rfl
  | cons x xs ih => simp [List.replicate_succ, ih]

/-- Combining with the empty derivative list under addition is the
identity. -/
theorem mapderiv_add_nil {α : Type} [AddZeroClass α] (l : List α) :
    mapderiv (fun a b => a + b) l [] = l := by
  simp [mapderiv, zipWith_add_replicate_zero]

/-- Claim C4: division fails with DivisionByZero exactly when the divisor
value is zero, and otherwise produces value u/v with derivative list
combine(-, d_u/v, u*d_v/v^2); the error case produces no DerivVar. -/
theorem dvDiv_spec {α : Type} [LinearOrderedField α] (u v : DerivVar α) :
    (dvDiv u v = .error .divisionByZero ↔ v.value = 0) ∧
    (v.value ≠ 0 → dvDiv u v = .ok ⟨u.value / v.value,
       mapderiv (fun a b => a - b)
         (u.deriv.map fun x => x / v.value)
         (v.deriv.map fun x => u.value * x / (v.value * v.value))⟩) := by
  constructor
  · constructor
    · intro h
      by_contra hv
      simp [dvDiv, hv] at h
    · intro h
      simp [dvDiv, h]
  · intro hv
    have h₁ : (fun x => 1 / v.value * x) = fun x : α => x / v.value := by
      funext x; rw [one_div_mul_eq_div]
    have h₂ : (fun x => u.value * (1 / v.value) * (1 / v.value) * x)
        = fun x : α => u.value * x / (v.value * v.value) := by
      funext x; field_simp
    simp only [dvDiv, if_neg hv]
    rw [h₁, h₂, mul_one_div]

/-- Claim C4 witness: division of (1,[1]) by the constant 2 over the
rationals. -/
theorem dvDiv_spec_witness :
    dvDiv (⟨1, [1]⟩ : DerivVar ℚ) ⟨2, []⟩ = .ok ⟨1 / 2, [1 / 2]⟩ := by
  rw [(dvDiv_spec (⟨1, [1]⟩ : DerivVar ℚ) ⟨2, []⟩).2 (by norm_num)]
  norm_num [mapderiv]

/-- Claim C5, evaluation at the failing input: at the nonzero value 5 the
source returns DerivVar(sign(5), 0), i.e. derivative list [1] (the basis
list at index 0), not an all-zero list; the zero-value error branch itself
behaves as claimed. -/
theorem dvSign_failing_input :
    dvSign (⟨5, [0, 1]⟩ : DerivVar ℤ) = .ok ⟨1, [1]⟩ ∧
    ¬ (∀ x ∈ (DerivVar.deriv ⟨1, [1]⟩ : List ℤ), x = 0) ∧
    dvSign (⟨0, [1]⟩ : DerivVar ℤ) = .error .undefinedDerivative := by
  refine ⟨rfl, by decide, rfl⟩

/-- Claim C6: a plain scalar operand is coerced to a constant DerivVar with
an empty derivative list, a DerivVar operand passes through unchanged, and
adding a coerced constant to a DerivVar yields the sum of the values with
the derivative list unchanged. -/
theorem coerce_add_spec {α : Type} [AddZeroClass α] (d : DerivVar α) (c : α)
    (d' : DerivVar α) :
    coerce d (.inl c) = (d, ⟨c, []⟩) ∧
    coerce d (.inr d') = (d, d') ∧
    dvAdd d ⟨c, []⟩ = ⟨d.value + c, d.deriv⟩ := by
  refine ⟨rfl, rfl, ?_⟩
  simp [dvAdd, mapderiv_add_nil]

/-- Claim C7: the constructor rejects any order outside zero and one with
InvalidOrder; order zero yields an empty derivative list; order one with an
integer index yields the basis list; order one with a prebuilt list stores
that list verbatim. -/
theorem mkDerivVar_spec {α : Type} [Zero α] [One α] (v : α) :
    (∀ (index : InitIndex α) (order : ℤ), order ≠ 0 → order ≠ 1 →
        mkDerivVar v index order = .error .invalidOrder) ∧
    (∀ index : InitIndex α, mkDerivVar v index 0 = .ok ⟨v, []⟩) ∧
    (∀ i : ℕ, mkDerivVar v (.idx i) 1 = .ok ⟨v, List.replicate i 0 ++ [1]⟩) ∧
    (∀ l : List α, mkDerivVar v (.vec l) 1 = .ok ⟨v, l⟩) := by
  refine ⟨?_, ?_, ?_, ?_⟩
  · intro index order h0 h1
    have h : order < 0 ∨ order > 1 := by omega
    simp [mkDerivVar, h]
  · intro index; norm_num [mkDerivVar]
  · intro i; norm_num [mkDerivVar]
  · intro l; norm_num [mkDerivVar]

/-- Claim C7 witness: order 2 is rejected. -/
theorem mkDerivVar_spec_witness :
    mkDerivVar (0 : ℤ) (.idx 0) 2 = .error .invalidOrder :=
  (mkDerivVar_spec 0).1 (.idx 0) 2 (by decide) (by decide)

/-- Claim C8: three plain scalars become three DerivVars with values x, y, z
and basis derivative lists at indices i, i+1, i+2; a basis list reads 1 at
its own index and 0 everywhere else; three DerivVar inputs are returned
unchanged. -/
theorem DerivVector_spec {α : Type} [Zero α] [One α] (x y z : α) (i : ℕ)
    (dx dy dz : DerivVar α) :
    DerivVector (.inl x) (.inl y) (.inl z) i =
      some [⟨x, basisDeriv i⟩, ⟨y, basisDeriv (i + 1)⟩,
            ⟨z, basisDeriv (i + 2)⟩] ∧
    DerivVector (.inr dx) (.inr dy) (.inr dz) i = some [dx, dy, dz] ∧
    (∀ k j : ℕ, (basisDeriv k : List α).getD j 0 = if j = k then 1 else 0) := by
  refine ⟨rfl, rfl, ?_⟩
  intro k
  induction k with
  | zero =>
    intro j
    cases j with
    | zero => simp [basisDeriv]
    | succ m => simp [basisDeriv]
  | succ n ih =>
    intro j
    cases j with
    | zero => simp [basisDeriv, List.replicate_succ]
    | succ m =>
      have h := ih m
      simp only [basisDeriv, List.replicate_succ, List.cons_append,
        List.getD_cons_succ] at h ⊢
      rw [h]
      simp [Nat.add_right_cancel_iff]

/-- Claim C10: the three-way comparison of two DerivVars is zero whenever
the values agree (whatever the derivative lists are), reports less-than
exactly when the first value is smaller, and depends on nothing but the two
values. -/
theorem dvCmp_spec {α : Type} [LinearOrder α] (a b : DerivVar α) :
    (a.value = b.value → dvCmp a b = 0) ∧
    (dvCmp a b = -1 ↔ a.value < b.value) ∧
    (∀ a' b' : DerivVar α, a.value = a'.value → b.value = b'.value →
        dvCmp a b = dvCmp a' b') := by
  refine ⟨?_, ?_, ?_⟩
  · intro h; simp [dvCmp, h]
  · rcases lt_trichotomy a.value b.value with h | h | h
    · simp [dvCmp, h]
    · simp [dvCmp, h, lt_irrefl]
    · simp [dvCmp, not_lt.mpr h.le, ne_of_gt h, lt_asymm h]
  · intro a' b' h₁ h₂; simp [dvCmp, h₁, h₂]

/-- Claim C10 witness: equal values with different derivative lists compare
equal. -/
theorem dvCmp_spec_witness :
    dvCmp (⟨1, [1]⟩ : DerivVar ℤ) ⟨1, [2, 3]⟩ = 0 :=
  (dvCmp_spec (⟨1, [1]⟩ : DerivVar ℤ) ⟨1, [2, 3]⟩).1 rfl

/-
Object store model for the allocation behaviour of the operators: a store
is the list of DerivVar objects created so far, a reference is a position
in that list, and an operation takes the store and the references of its
operands and yields the updated store and the reference of its result.
-/

/-- Heap of DerivVar objects; a reference is an index into the list. -/
structure Store (α : Type) where
  objs : List (DerivVar α)
  deriving DecidableEq, Repr

/-- Allocate a new object at the end of the store and return its
reference. -/
def Store.alloc {α : Type} (s : Store α) (d : DerivVar α) : Store α × ℕ :=
  (⟨s.objs ++ [d]⟩, s.objs.length)

/-- Read the object a reference designates. -/
def Store.read {α : Type} [Zero α] (s : Store α) (r : ℕ) : DerivVar α :=
  s.objs.getD r ⟨0, []⟩

/-- Source `__neg__` at the store level: reads the operand and allocates the
negated result as a new object. -/
def negH {α : Type} [Neg α] [Zero α] (s : Store α) (r : ℕ) : Store α × ℕ :=
  s.alloc (dvNeg (s.read r))

/-- Source `__add__` at the store level: reads both operands and allocates
the sum as a new object. -/
def addH {α : Type} [AddZeroClass α] (s : Store α) (r₁ r₂ : ℕ) :
    Store α × ℕ :=
  s.alloc (dvAdd (s.read r₁) (s.read r₂))

/-- Source `__pos__` at the store level: the source body is `return self`,
so the store is untouched and the result reference is the operand
reference itself. -/
def posH {α : Type} (s : Store α) (r : ℕ) : Store α × ℕ := (s, r)

/-- Reading the slot just past an existing list after appending one object
yields that object. -/
theorem getD_append_length {α : Type} [Zero α] (l : List α) (d z : α) :
    (l ++ [d]).getD l.length z = d := by
  induction l with
  | nil => rfl
  | cons x xs ih =>
    simp only [List.cons_append, List.length_cons, List.getD_cons_succ]
    exact ih

/-- Claim C9 counterexample: on a store holding the single DerivVar (3,[1]),
unary plus applied to reference 0 returns the same store and reference 0 —
the operand itself, not a freshly allocated object (negation, by contrast,
allocates the fresh reference 1). -/
theorem posH_counterexample :
    posH (⟨[⟨(3 : ℤ), [1]⟩]⟩ : Store ℤ) 0 = (⟨[⟨3, [1]⟩]⟩, 0) ∧
    (negH (⟨[⟨(3 : ℤ), [1]⟩]⟩ : Store ℤ) 0).2 = 1 :=
  ⟨rfl, rfl⟩

/-- Allocation leaves every existing object unchanged, returns the first
reference past the existing ones (hence one distinct from every existing
reference), and the new reference reads back the allocated object. -/
theorem alloc_spec {α : Type} [Zero α] (s : Store α) (d : DerivVar α) :
    (s.alloc d).1.objs.take s.objs.length = s.objs ∧
    (s.alloc d).2 = s.objs.length ∧
    (s.alloc d).1.read (s.alloc d).2 = d ∧
    ∀ i : ℕ, i < s.objs.length → (s.alloc d).2 ≠ i := by
  refine ⟨List.take_left s.objs _, rfl, ?_, ?_⟩
  · simp [Store.alloc, Store.read, getD_append_length]
  · intro i hi
    simp only [Store.alloc]
    omega

/-
Real-valued layer: the power operator and the transcendental functions of
the source, over the reals.
-/

/-- The builtin float power of the host language, which raises
ZeroDivisionError when a zero base meets a negative exponent. -/
noncomputable def pyPow (x y : ℝ) : Except DVError ℝ :=
  if x = 0 ∧ y < 0 then .error .divisionByZero else .ok (x ^ y)

/-- Source `__pow__(self, other, z)`: a modulus argument is always
rejected; otherwise `val1 = pow(value, other.value - 1)` (the builtin pow,
which raises on a zero base with the negative exponent `other.value - 1`),
the result value is `val1 * value`, the base term scales the self
derivatives by `val1 * other.value`, and when the exponent has a nonempty
derivative list the exponent term `val * log(value)` scales the exponent
derivatives and the two terms are combined. -/
noncomputable def dvPow (u w : DerivVar ℝ) (z : Option ℝ) :
    Except DVError (DerivVar ℝ) :=
  match z with
  | some _ => .error .unsupportedTernaryPow
  | none =>
    if u.value = 0 ∧ w.value - 1 < 0 then .error .divisionByZero
    else if w.deriv ≠ [] then
      .ok ⟨u.value ^ (w.value - 1) * u.value,
        mapderiv (fun a b => a + b)
          (u.deriv.map fun x => u.value ^ (w.value - 1) * w.value * x)
          (w.deriv.map fun x =>
            u.value ^ (w.value - 1) * u.value * Real.log u.value * x)⟩
    else
      .ok ⟨u.value ^ (w.value - 1) * u.value,
        u.deriv.map fun x => u.value ^ (w.value - 1) * w.value * x⟩

/-- Splitting off one factor of the base from a real power, valid for a
nonzero base and also for a zero base when the exponent is at least one. -/
theorem rpow_pred_mul_self (u wv : ℝ) (h : u ≠ 0 ∨ 1 ≤ wv) :
    u ^ (wv - 1) * u = u ^ wv := by
  rcases em (u = 0) with hu | hu
  · subst hu
    rcases em (wv = 1) with hw | hw
    · subst hw
      norm_num
    · have h1 : wv - 1 ≠ 0 := fun hc => hw (by linarith [sub_eq_zero.mp hc])
      have h0 : wv ≠ 0 := by
        rcases h with h | h
        · exact absurd rfl h
        · exact fun hc => by rw [hc] at h; linarith
      rw [Real.zero_rpow h1, Real.zero_rpow h0, zero_mul]
  · have key := Real.rpow_add_one hu (wv - 1)
    have h1 : wv - 1 + 1 = wv := by ring
    rw [h1] at key
    exact key.symm

/-- Claim C3 counterexample: at base value 0 and exponent value 0 the
source evaluates the builtin pow at exponent -1, which fails with
DivisionByZero, so no DerivVar with value 0^0 is produced. -/
theorem dvPow_counterexample :
    dvPow ⟨0, []⟩ ⟨0, []⟩ none = .error .divisionByZero := by
  norm_num [dvPow]

/-- Claim C3 as amended: provided the base value is nonzero or the exponent
value is at least one (otherwise the intermediate power u^(w-1) fails with
DivisionByZero), u ** w has value u^w, its derivative carries the base term
w*u^(w-1)*d_u, and exactly when the exponent has a nonempty derivative list
the exponent term u^w*ln(u)*d_w is additionally combined in; a ternary
power always fails with UnsupportedTernaryPow. -/
theorem dvPow_spec (u w : DerivVar ℝ) (h : u.value ≠ 0 ∨ 1 ≤ w.value) :
    (∀ m : ℝ, dvPow u w (some m) = .error .unsupportedTernaryPow) ∧
    dvPow u w none = .ok ⟨u.value ^ w.value,
      if w.deriv = [] then
        u.deriv.map fun x => w.value * u.value ^ (w.value - 1) * x
      else
        mapderiv (fun a b => a + b)
          (u.deriv.map fun x => w.value * u.value ^ (w.value - 1) * x)
          (w.deriv.map fun x => u.value ^ w.value * Real.log u.value * x)⟩ := by
  refine ⟨fun m => rfl, ?_⟩
  have hval := rpow_pred_mul_self u.value w.value h
  have hguard : ¬ (u.value = 0 ∧ w.value - 1 < 0) := by
    rcases h with h | h
    · exact fun hc => h hc.1
    · exact fun hc => by linarith [hc.2]
  have hbase : (fun x => u.value ^ (w.value - 1) * w.value * x)
      = fun x : ℝ => w.value * u.value ^ (w.value - 1) * x := by
    funext x; ring
  have hexp : (fun x => u.value ^ (w.value - 1) * u.value * Real.log u.value * x)
      = fun x : ℝ => u.value ^ w.value * Real.log u.value * x := by
    funext x; rw [hval]
  rcases em (w.deriv = []) with hw | hw
  · simp only [dvPow, if_neg hguard]
    rw [if_neg (not_not_intro hw), hbase, hval, if_pos hw]
  · simp only [dvPow, if_neg hguard]
    rw [if_pos hw, hbase, hexp, hval, if_neg hw]

/-- Claim C3 witness: the concrete power (2,[1]) ** (3,[0,1]) has value 8
and derivative list [12, 8*ln 2]. -/
theorem dvPow_spec_witness :
    dvPow ⟨2, [1]⟩ ⟨3, [0, 1]⟩ none = .ok ⟨8, [12, 8 * Real.log 2]⟩ := by
  have h := (dvPow_spec ⟨2, [1]⟩ ⟨3, [0, 1]⟩ (Or.inl two_ne_zero)).2
  rw [h]
  have h31 : (3 : ℝ) - 1 = 2 := by norm_num
  have h22 : (2 : ℝ) ^ (2 : ℝ) = 4 := by
    rw [show (2 : ℝ) = ((2 : ℕ) : ℝ) by norm_num]
    rw [Real.rpow_natCast]
    norm_num
  have h23 : (2 : ℝ) ^ (3 : ℝ) = 8 := by
    rw [show (3 : ℝ) = ((3 : ℕ) : ℝ) by norm_num]
    rw [Real.rpow_natCast]
    norm_num
  simp only [h31, h22, h23]
  norm_num [mapderiv]
  simp

/-- External special-function collaborators of the source: the numpy
two-argument arctangent and the scipy gamma and digamma providers; the
design keeps them outside the core, so they enter as parameters. -/
structure ExternalFns where
  atan2 : ℝ → ℝ → ℝ
  gammaFn : ℝ → ℝ
  psiFn : ℝ → ℝ

/-- Source `exp`. -/
noncomputable def dvExp (u : DerivVar ℝ) : DerivVar ℝ :=
  ⟨Real.exp u.value, u.deriv.map fun x => Real.exp u.value * x⟩

/-- Source `log`. -/
noncomputable def dvLog (u : DerivVar ℝ) : DerivVar ℝ :=
  ⟨Real.log u.value, u.deriv.map fun x => (1 / u.value) * x⟩

/-- Source `log10`. -/
noncomputable def dvLog10 (u : DerivVar ℝ) : DerivVar ℝ :=
  ⟨Real.logb 10 u.value,
   u.deriv.map fun x => (1 / (u.value * Real.log 10)) * x⟩

/-- Source `sqrt`. -/
noncomputable def dvSqrt (u : DerivVar ℝ) : DerivVar ℝ :=
  ⟨Real.sqrt u.value,
   u.deriv.map fun x => ((1 / 2) / Real.sqrt u.value) * x⟩

/-- Source `sin`. -/
noncomputable def dvSin (u : DerivVar ℝ) : DerivVar ℝ :=
  ⟨Real.sin u.value, u.deriv.map fun x => Real.cos u.value * x⟩

/-- Source `cos`. -/
noncomputable def dvCos (u : DerivVar ℝ) : DerivVar ℝ :=
  ⟨Real.cos u.value, u.deriv.map fun x => -Real.sin u.value * x⟩

/-- Source `tan`. -/
noncomputable def dvTan (u : DerivVar ℝ) : DerivVar ℝ :=
  ⟨Real.tan u.value, u.deriv.map fun x => (1 + Real.tan u.value ^ 2) * x⟩

/-- Source `sinh`. -/
noncomputable def dvSinh (u : DerivVar ℝ) : DerivVar ℝ :=
  ⟨Real.sinh u.value, u.deriv.map fun x => Real.cosh u.value * x⟩

/-- Source `cosh`. -/
noncomputable def dvCosh (u : DerivVar ℝ) : DerivVar ℝ :=
  ⟨Real.cosh u.value, u.deriv.map fun x => Real.sinh u.value * x⟩

/-- Source `tanh`. -/
noncomputable def dvTanh (u : DerivVar ℝ) : DerivVar ℝ :=
  ⟨Real.tanh u.value, u.deriv.map fun x => (1 / Real.cosh u.value ^ 2) * x⟩

/-- Source `arcsin`. -/
noncomputable def dvArcsin (u : DerivVar ℝ) : DerivVar ℝ :=
  ⟨Real.arcsin u.value,
   u.deriv.map fun x => (1 / Real.sqrt (1 - u.value ^ 2)) * x⟩

/-- Source `arccos`. -/
noncomputable def dvArccos (u : DerivVar ℝ) : DerivVar ℝ :=
  ⟨Real.arccos u.value,
   u.deriv.map fun x => (-1 / Real.sqrt (1 - u.value ^ 2)) * x⟩

/-- Source `arctan`. -/
noncomputable def dvArctan (u : DerivVar ℝ) : DerivVar ℝ :=
  ⟨Real.arctan u.value,
   u.deriv.map fun x => (1 / (1 + u.value ^ 2)) * x⟩

/-- Source `arctan2(self, other)`. -/
noncomputable def dvArctan2 (atan2fn : ℝ → ℝ → ℝ) (u other : DerivVar ℝ) :
    DerivVar ℝ :=
  ⟨atan2fn u.value other.value,
   mapderiv (fun a b => a - b)
     (u.deriv.map fun x =>
       (other.value / (u.value * u.value + other.value * other.value)) * x)
     (other.deriv.map fun x =>
       (u.value / (u.value * u.value + other.value * other.value)) * x)⟩

/-- Source `gamma`, with the external gamma and digamma providers. -/
noncomputable def dvGamma (gammaFn psiFn : ℝ → ℝ) (u : DerivVar ℝ) :
    DerivVar ℝ :=
  ⟨gammaFn u.value,
   u.deriv.map fun x => gammaFn u.value * psiFn u.value * x⟩

/-- The unary operations of the engine that never raise. -/
inductive UnaryOp where
  | neg | pos | abs | exp | log | log10 | sqrt
  | sin | cos | tan | sinh | cosh | tanh
  | arcsin | arccos | arctan | gamma
  deriving DecidableEq

/-- Dispatch a unary operation to its source translation. -/
noncomputable def applyUnary (F : ExternalFns) :
    UnaryOp → DerivVar ℝ → DerivVar ℝ
  | .neg => dvNeg
  | .pos => dvPos
  | .abs => dvAbs
  | .exp => dvExp
  | .log => dvLog
  | .log10 => dvLog10
  | .sqrt => dvSqrt
  | .sin => dvSin
  | .cos => dvCos
  | .tan => dvTan
  | .sinh => dvSinh
  | .cosh => dvCosh
  | .tanh => dvTanh
  | .arcsin => dvArcsin
  | .arccos => dvArccos
  | .arctan => dvArctan
  | .gamma => dvGamma F.gammaFn F.psiFn

/-- The same unary operations on plain scalars. -/
noncomputable def scalarUnary (F : ExternalFns) : UnaryOp → ℝ → ℝ
  | .neg => fun x => -x
  | .pos => fun x => x
  | .abs => fun x => |x|
  | .exp => Real.exp
  | .log => Real.log
  | .log10 => Real.logb 10
  | .sqrt => Real.sqrt
  | .sin => Real.sin
  | .cos => Real.cos
  | .tan => Real.tan
  | .sinh => Real.sinh
  | .cosh => Real.cosh
  | .tanh => Real.tanh
  | .arcsin => Real.arcsin
  | .arccos => Real.arccos
  | .arctan => Real.arctan
  | .gamma => F.gammaFn

/-- The value field of every unary operation is the scalar function of the
operand value alone. -/
theorem applyUnary_value (F : ExternalFns) (op : UnaryOp) (u : DerivVar ℝ) :
    (applyUnary F op u).value = scalarUnary F op u.value := by
  cases op <;> rfl

/-- Expressions over DerivVar leaves built from the supported operators and
functions. -/
inductive Expr where
  | lit (d : DerivVar ℝ)
  | una (op : UnaryOp) (e : Expr)
  | add (a b : Expr)
  | sub (a b : Expr)
  | mul (a b : Expr)
  | div (a b : Expr)
  | pow (a b : Expr)
  | sgn (e : Expr)
  | atan2 (a b : Expr)

/-- Dual-number evaluation of an expression through the source operators;
an operation that raises in the source produces the error instead. -/
noncomputable def evalD (F : ExternalFns) : Expr → Except DVError (DerivVar ℝ)
  | .lit d => .ok d
  | .una op e =>
    match evalD F e with
    | .error er => .error er
    | .ok u => .ok (applyUnary F op u)
  | .add a b =>
    match evalD F a, evalD F b with
    | .ok u, .ok v => .ok (dvAdd u v)
    | .error er, _ => .error er
    | _, .error er => .error er
  | .sub a b =>
    match evalD F a, evalD F b with
    | .ok u, .ok v => .ok (dvSub u v)
    | .error er, _ => .error er
    | _, .error er => .error er
  | .mul a b =>
    match evalD F a, evalD F b with
    | .ok u, .ok v => .ok (dvMul u v)
    | .error er, _ => .error er
    | _, .error er => .error er
  | .div a b =>
    match evalD F a, evalD F b with
    | .ok u, .ok v => dvDiv u v
    | .error er, _ => .error er
    | _, .error er => .error er
  | .pow a b =>
    match evalD F a, evalD F b with
    | .ok u, .ok v => dvPow u v none
    | .error er, _ => .error er
    | _, .error er => .error er
  | .sgn e =>
    match evalD F e with
    | .error er => .error er
    | .ok u => dvSign u
  | .atan2 a b =>
    match evalD F a, evalD F b with
    | .ok u, .ok v => .ok (dvArctan2 F.atan2 u v)
    | .error er, _ => .error er
    | _, .error er => .error er

/-- Plain-scalar evaluation of the same expression, the reference
semantics of the round-trip property of the design document: every leaf
contributes its scalar value only, and each operation acts on plain
scalars, raising exactly where plain-scalar arithmetic raises. -/
noncomputable def evalS (F : ExternalFns) : Expr → Except DVError ℝ
  | .lit d => .ok d.value
  | .una op e =>
    match evalS F e with
    | .error er => .error er
    | .ok x => .ok (scalarUnary F op x)
  | .add a b =>
    match evalS F a, evalS F b with
    | .ok x, .ok y => .ok (x + y)
    | .error er, _ => .error er
    | _, .error er => .error er
  | .sub a b =>
    match evalS F a, evalS F b with
    | .ok x, .ok y => .ok (x - y)
    | .error er, _ => .error er
    | _, .error er => .error er
  | .mul a b =>
    match evalS F a, evalS F b with
    | .ok x, .ok y => .ok (x * y)
    | .error er, _ => .error er
    | _, .error er => .error er
  | .div a b =>
    match evalS F a, evalS F b with
    | .ok x, .ok y => if y = 0 then .error .divisionByZero else .ok (x / y)
    | .error er, _ => .error er
    | _, .error er => .error er
  | .pow a b =>
    match evalS F a, evalS F b with
    | .ok x, .ok y => pyPow x y
    | .error er, _ => .error er
    | _, .error er => .error er
  | .sgn e =>
    match evalS F e with
    | .error er => .error er
    | .ok x => .ok (npSign x)
  | .atan2 a b =>
    match evalS F a, evalS F b with
    | .ok x, .ok y => .ok (F.atan2 x y)
    | .error er, _ => .error er
    | _, .error er => .error er

/-- Whenever dual-number evaluation succeeds, its value field equals the
plain-scalar evaluation of the same expression. -/
theorem evalD_ok_value (F : ExternalFns) (e : Expr) :
    ∀ d : DerivVar ℝ, evalD F e = .ok d → evalS F e = .ok d.value := by
  induction e with
  | lit d0 =>
    intro d h
    simp only [evalD, Except.ok.injEq] at h
    subst h
    rfl
  | una op e ih =>
    intro d h
    cases he : evalD F e with
    | error er => simp only [evalD, he] at h; exact Except.noConfusion h
    | ok u =>
      simp only [evalD, he, Except.ok.injEq] at h
      subst h
      simp only [evalS, ih u he, applyUnary_value]
  | add a b iha ihb =>
    intro d h
    cases ha : evalD F a with
    | error er => simp only [evalD, ha] at h; exact Except.noConfusion h
    | ok u =>
      cases hb : evalD F b with
      | error er => simp only [evalD, ha, hb] at h; exact Except.noConfusion h
      | ok v =>
        simp only [evalD, ha, hb, Except.ok.injEq] at h
        subst h
        simp only [evalS, iha u ha, ihb v hb]
        rfl
  | sub a b iha ihb =>
    intro d h
    cases ha : evalD F a with
    | error er => simp only [evalD, ha] at h; exact Except.noConfusion h
    | ok u =>
      cases hb : evalD F b with
      | error er => simp only [evalD, ha, hb] at h; exact Except.noConfusion h
      | ok v =>
        simp only [evalD, ha, hb, Except.ok.injEq] at h
        subst h
        simp only [evalS, iha u ha, ihb v hb]
        rfl
  | mul a b iha ihb =>
    intro d h
    cases ha : evalD F a with
    | error er => simp only [evalD, ha] at h; exact Except.noConfusion h
    | ok u =>
      cases hb : evalD F b with
      | error er => simp only [evalD, ha, hb] at h; exact Except.noConfusion h
      | ok v =>
        simp only [evalD, ha, hb, Except.ok.injEq] at h
        subst h
        simp only [evalS, iha u ha, ihb v hb]
        rfl
  | div a b iha ihb =>
    intro d h
    cases ha : evalD F a with
    | error er => simp only [evalD, ha] at h; exact Except.noConfusion h
    | ok u =>
      cases hb : evalD F b with
      | error er => simp only [evalD, ha, hb] at h; exact Except.noConfusion h
      | ok v =>
        simp only [evalD, ha, hb, dvDiv] at h
        by_cases hv : v.value = 0
        · rw [if_pos hv] at h; exact Except.noConfusion h
        · rw [if_neg hv] at h
          simp only [Except.ok.injEq] at h
          subst h
          simp only [evalS, iha u ha, ihb v hb, if_neg hv]
          rw [mul_one_div]
  | pow a b iha ihb =>
    intro d h
    cases ha : evalD F a with
    | error er => simp only [evalD, ha] at h; exact Except.noConfusion h
    | ok u =>
      cases hb : evalD F b with
      | error er => simp only [evalD, ha, hb] at h; exact Except.noConfusion h
      | ok v =>
        simp only [evalD, ha, hb, dvPow] at h
        by_cases hg : u.value = 0 ∧ v.value - 1 < 0
        · rw [if_pos hg] at h; exact Except.noConfusion h
        · rw [if_neg hg] at h
          have hcase : u.value ≠ 0 ∨ 1 ≤ v.value := by
            by_cases hu : u.value = 0
            · right
              by_contra hlt
              exact hg ⟨hu, by linarith [not_le.mp hlt]⟩
            · exact Or.inl hu
          have hval := rpow_pred_mul_self u.value v.value hcase
          have hvalue : d.value = u.value ^ v.value := by
            by_cases hw : v.deriv = []
            · rw [if_neg (not_not_intro hw)] at h
              simp only [Except.ok.injEq] at h
              rw [← h]
              exact hval
            · rw [if_pos hw] at h
              simp only [Except.ok.injEq] at h
              rw [← h]
              exact hval
          have hpy : pyPow u.value v.value = .ok (u.value ^ v.value) := by
            rw [pyPow, if_neg ?hng]
            case hng =>
              intro hc
              exact hg ⟨hc.1, by linarith [hc.2]⟩
          simp only [evalS, iha u ha, ihb v hb, hpy, hvalue]
  | sgn e ih =>
    intro d h
    cases he : evalD F e with
    | error er => simp only [evalD, he] at h; exact Except.noConfusion h
    | ok u =>
      simp only [evalD, he, dvSign] at h
      by_cases hu : u.value = 0
      · rw [if_pos hu] at h; exact Except.noConfusion h
      · rw [if_neg hu] at h
        simp only [Except.ok.injEq] at h
        subst h
        simp only [evalS, ih u he]
  | atan2 a b iha ihb =>
    intro d h
    cases ha : evalD F a with
    | error er => simp only [evalD, ha] at h; exact Except.noConfusion h
    | ok u =>
      cases hb : evalD F b with
      | error er => simp only [evalD, ha, hb] at h; exact Except.noConfusion h
      | ok v =>
        simp only [evalD, ha, hb, Except.ok.injEq] at h
        subst h
        simp only [evalS, iha u ha, ihb v hb]
        rfl

/-- Claim C2: whenever dual-number evaluation of an expression succeeds,
reading the result at order 0 returns its scalar value, and that value
equals the plain-scalar evaluation of the same expression — the value
channel is a function of operand values only, never of derivative
lists. -/
theorem value_channel_spec (F : ExternalFns) (e : Expr) (d : DerivVar ℝ)
    (h : evalD F e = .ok d) :
    dvGetItem d 0 = .ok (.inl d.value) ∧ evalS F e = .ok d.value :=
  ⟨by norm_num [dvGetItem], evalD_ok_value F e d h⟩

/-- Trivial instantiation of the external special-function providers. -/
noncomputable def F0 : ExternalFns := ⟨fun _ _ => 0, fun _ => 0, fun _ => 0⟩

/-- Claim C2 witness: the sum (1,[1]) + (2,[]) evaluates dually to (3,[1])
and its plain-scalar evaluation returns exactly the value 3. -/
theorem value_channel_spec_witness :
    evalS F0 (.add (.lit ⟨1, [1]⟩) (.lit ⟨2, []⟩)) = .ok (3 : ℝ) := by
  have h : evalD F0 (.add (.lit ⟨1, [1]⟩) (.lit ⟨2, []⟩)) = .ok ⟨3, [1]⟩ := by
    simp only [evalD, dvAdd, mapderiv]
    norm_num
  exact (value_channel_spec F0 (.add (.lit ⟨1, [1]⟩) (.lit ⟨2, []⟩)) ⟨3, [1]⟩ h).2

/-- The total binary operations of the engine. -/
inductive BinaryOp where
  | add | sub | mul | atan2
  deriving DecidableEq

/-- Dispatch a total binary operation to its source translation. -/
noncomputable def applyBinary (F : ExternalFns) :
    BinaryOp → DerivVar ℝ → DerivVar ℝ → DerivVar ℝ
  | .add => dvAdd
  | .sub => dvSub
  | .mul => dvMul
  | .atan2 => dvArctan2 F.atan2

/-- Any unary operation at the store level: every source method except
`__pos__` ends in a constructor call, i.e. allocates its result as a new
object; `__pos__` is `return self`, so the store is untouched and the
result reference is the operand reference itself. -/
noncomputable def unaH (F : ExternalFns) (op : UnaryOp) (s : Store ℝ)
    (r : ℕ) : Store ℝ × ℕ :=
  if op = .pos then (s, r)
  else s.alloc (applyUnary F op (s.read r))

/-- Any total binary operation at the store level: reads both operands and
allocates the result as a new object. -/
noncomputable def binH (F : ExternalFns) (op : BinaryOp) (s : Store ℝ)
    (r₁ r₂ : ℕ) : Store ℝ × ℕ :=
  s.alloc (applyBinary F op (s.read r₁) (s.read r₂))

/-- Division at the store level: on success the result is allocated as a
new object, on failure nothing is allocated. -/
noncomputable def divH (s : Store ℝ) (r₁ r₂ : ℕ) :
    Except DVError (Store ℝ × ℕ) :=
  (dvDiv (s.read r₁) (s.read r₂)).map s.alloc

/-- Floor division at the store level: always fails, nothing is
allocated. -/
noncomputable def floorDivH (s : Store ℝ) (r₁ r₂ : ℕ) :
    Except DVError (Store ℝ × ℕ) :=
  (dvFloorDiv (s.read r₁) (s.read r₂)).map s.alloc

/-- Power at the store level: on success the result is allocated as a new
object, on failure nothing is allocated. -/
noncomputable def powH (s : Store ℝ) (r₁ r₂ : ℕ) (z : Option ℝ) :
    Except DVError (Store ℝ × ℕ) :=
  (dvPow (s.read r₁) (s.read r₂) z).map s.alloc

/-- Sign at the store level: on success the result is allocated as a new
object, on failure nothing is allocated. -/
noncomputable def signH (s : Store ℝ) (r : ℕ) :
    Except DVError (Store ℝ × ℕ) :=
  (dvSign (s.read r)).map s.alloc


/-- An operation that allocates its successful result: every previously
allocated object is unchanged, the result reference is fresh, and it reads
back the computed object; a failing operation allocates nothing. -/
theorem map_alloc_ok {α : Type} [Zero α] (s : Store α)
    (x : Except DVError (DerivVar α)) (s' : Store α) (ref : ℕ)
    (h : x.map s.alloc = .ok (s', ref)) :
    s'.objs.take s.objs.length = s.objs ∧ ref = s.objs.length ∧
    x = .ok (s'.read ref) ∧ ∀ i : ℕ, i < s.objs.length → ref ≠ i := by
  cases x with
  | error e => simp [Except.map] at h
  | ok d =>
    simp only [Except.map, Except.ok.injEq, Prod.ext_iff] at h
    obtain ⟨h1, h2⟩ := h
    subst h1
    subst h2
    obtain ⟨f1, f2, f3, f4⟩ := alloc_spec s d
    refine ⟨f1, f2, ?_, f4⟩
    rw [f3]

/-- Claim C9 as amended, covering every operator and function of the
source that returns a DerivVar (the reflected variants are aliases of or
delegate to these, and floor division never returns one): each operation
leaves every previously allocated object — in particular its operands —
unchanged, allocates its result at a fresh reference distinct from every
existing reference, and the object there is computed from the operand
objects; for the fallible operations a failure allocates nothing; the
single exception is unary plus, whose source body is `return self`: it
leaves the store unchanged and returns its operand reference itself
rather than a fresh object. -/
theorem ops_frame_spec (F : ExternalFns) (s : Store ℝ) (r r₁ r₂ : ℕ) :
    (∀ op : UnaryOp, op ≠ .pos →
      (unaH F op s r).1.objs.take s.objs.length = s.objs ∧
      (unaH F op s r).2 = s.objs.length ∧
      (unaH F op s r).1.read (unaH F op s r).2 = applyUnary F op (s.read r) ∧
      (r < s.objs.length → (unaH F op s r).2 ≠ r)) ∧
    (∀ op : BinaryOp,
      (binH F op s r₁ r₂).1.objs.take s.objs.length = s.objs ∧
      (binH F op s r₁ r₂).2 = s.objs.length ∧
      (binH F op s r₁ r₂).1.read (binH F op s r₁ r₂).2
        = applyBinary F op (s.read r₁) (s.read r₂) ∧
      (r₁ < s.objs.length → (binH F op s r₁ r₂).2 ≠ r₁) ∧
      (r₂ < s.objs.length → (binH F op s r₁ r₂).2 ≠ r₂)) ∧
    (∀ (s' : Store ℝ) (ref : ℕ), divH s r₁ r₂ = .ok (s', ref) →
      s'.objs.take s.objs.length = s.objs ∧ ref = s.objs.length ∧
      dvDiv (s.read r₁) (s.read r₂) = .ok (s'.read ref) ∧
      (r₁ < s.objs.length → ref ≠ r₁) ∧ (r₂ < s.objs.length → ref ≠ r₂)) ∧
    (∀ (z : Option ℝ) (s' : Store ℝ) (ref : ℕ),
      powH s r₁ r₂ z = .ok (s', ref) →
      s'.objs.take s.objs.length = s.objs ∧ ref = s.objs.length ∧
      dvPow (s.read r₁) (s.read r₂) z = .ok (s'.read ref) ∧
      (r₁ < s.objs.length → ref ≠ r₁) ∧ (r₂ < s.objs.length → ref ≠ r₂)) ∧
    (∀ (s' : Store ℝ) (ref : ℕ), signH s r = .ok (s', ref) →
      s'.objs.take s.objs.length = s.objs ∧ ref = s.objs.length ∧
      dvSign (s.read r) = .ok (s'.read ref) ∧
      (r < s.objs.length → ref ≠ r)) ∧
    floorDivH s r₁ r₂ = .error .unsupportedOperation ∧
    unaH F .pos s r = (s, r) ∧
    posH s r = (s, r) := by
  refine ⟨?_, ?_, ?_, ?_, ?_, rfl, by simp [unaH], rfl⟩
  · intro op hop
    simp only [unaH, if_neg hop]
    obtain ⟨f1, f2, f3, f4⟩ := alloc_spec s (applyUnary F op (s.read r))
    exact ⟨f1, f2, f3, fun hr => f4 r hr⟩
  · intro op
    simp only [binH]
    obtain ⟨f1, f2, f3, f4⟩ :=
      alloc_spec s (applyBinary F op (s.read r₁) (s.read r₂))
    exact ⟨f1, f2, f3, fun hr => f4 r₁ hr, fun hr => f4 r₂ hr⟩
  · intro s' ref h
    simp only [divH] at h
    obtain ⟨f1, f2, f3, f4⟩ := map_alloc_ok s _ s' ref h
    exact ⟨f1, f2, f3, fun hr => f4 r₁ hr, fun hr => f4 r₂ hr⟩
  · intro z s' ref h
    simp only [powH] at h
    obtain ⟨f1, f2, f3, f4⟩ := map_alloc_ok s _ s' ref h
    exact ⟨f1, f2, f3, fun hr => f4 r₁ hr, fun hr => f4 r₂ hr⟩
  · intro s' ref h
    simp only [signH] at h
    obtain ⟨f1, f2, f3, f4⟩ := map_alloc_ok s _ s' ref h
    exact ⟨f1, f2, f3, fun hr => f4 r hr⟩

/-- Claim C9 witness: on the one-object store, the result reference of
negation differs from the operand reference. -/
theorem ops_frame_spec_witness :
    (unaH F0 .neg (⟨[⟨(3 : ℝ), [1]⟩]⟩ : Store ℝ) 0).2 ≠ 0 :=
  ((ops_frame_spec F0 (⟨[⟨(3 : ℝ), [1]⟩]⟩ : Store ℝ) 0 0 0).1 .neg
    (by decide)).2.2.2 (by decide)
